import Mathlib

/-!
Verification of the mctl core: repository identity and registry
(`repository.GenerateID`, `Manager.AddRepository`), the repository state
machine (`Repository.UpdateStatus`, `Repository.GetRemoteStatus`), the
snapshot engine (`snapshot.Manager.SaveSnapshot` / `LoadSnapshot` /
`ApplySnapshot`) and the synchronization run's exit condition
(`cmd.runSync`).

The Go code shells out to git and to the file system; those boundaries are
modelled as explicit oracle records (`GitEnv`, `AddEnv`, `ApplyEnv`): each
field holds the result the corresponding subprocess or file operation
returns, and the embedded control flow is a line-by-line translation of the
Go function bodies.  Byte strings are `List Nat`, 32-bit words are `Nat`
reduced modulo `2 ^ 32`, and SHA-256 is implemented in full so that derived
identifiers are computable.
-/

deriving instance DecidableEq for Except

namespace Mctl

/-! ## SHA-256 (Go `crypto/sha256.Sum256`) -/

/-- Addition of 32-bit words, modulo `2 ^ 32`. -/
def wadd (a b : Nat) : Nat := (a + b) % 4294967296

/-- Right rotation of a 32-bit word by `n` bits. -/
def rotr (x n : Nat) : Nat := ((x >>> n) ||| (x <<< (32 - n))) &&& 4294967295

def bsig0 (x : Nat) : Nat := rotr x 2 ^^^ rotr x 13 ^^^ rotr x 22

def bsig1 (x : Nat) : Nat := rotr x 6 ^^^ rotr x 11 ^^^ rotr x 25

def ssig0 (x : Nat) : Nat := rotr x 7 ^^^ rotr x 18 ^^^ (x >>> 3)

def ssig1 (x : Nat) : Nat := rotr x 17 ^^^ rotr x 19 ^^^ (x >>> 10)

def chf (x y z : Nat) : Nat := (x &&& y) ^^^ ((x ^^^ 4294967295) &&& z)

def majf (x y z : Nat) : Nat := (x &&& y) ^^^ (x &&& z) ^^^ (y &&& z)

/-- Round constants of SHA-256 (FIPS 180-4), written in decimal. -/
def sha256K : List Nat :=
  [1116352408, 1899447441, 3049323471, 3921009573, 961987163,
   1508970993, 2453635748, 2870763221, 3624381080, 310598401,
   607225278, 1426881987, 1925078388, 2162078206, 2614888103,
   3248222580, 3835390401, 4022224774, 264347078, 604807628,
   770255983, 1249150122, 1555081692, 1996064986, 2554220882,
   2821834349, 2952996808, 3210313671, 3336571891, 3584528711,
   113926993, 338241895, 666307205, 773529912, 1294757372,
   1396182291, 1695183700, 1986661051, 2177026350, 2456956037,
   2730485921, 2820302411, 3259730800, 3345764771, 3516065817,
   3600352804, 4094571909, 275423344, 430227734, 506948616,
   659060556, 883997877, 958139571, 1322822218, 1537002063,
   1747873779, 1955562222, 2024104815, 2227730452, 2361852424,
   2428436474, 2756734187, 3204031479, 3329325298]

/-- Big-endian 8-byte encoding of the message length in bits. -/
def be64 (n : Nat) : List Nat :=
  [(n >>> 56) &&& 255, (n >>> 48) &&& 255, (n >>> 40) &&& 255, (n >>> 32) &&& 255,
   (n >>> 24) &&& 255, (n >>> 16) &&& 255, (n >>> 8) &&& 255, n &&& 255]

/-- SHA-256 padding: a `0x80` byte, zeros to 56 mod 64, then the bit length. -/
def sha256pad (msg : List Nat) : List Nat :=
  let len := msg.length
  let z := (64 - ((len + 9) % 64)) % 64
  msg ++ [128] ++ List.replicate z 0 ++ be64 (len * 8)

/-- Split a byte list into 64-byte blocks; the fuel (the list length) makes
the recursion structural, so the definition reduces inside the kernel. -/
def toBlocksF : Nat → List Nat → List (List Nat)
  | 0, _ => []
  | _ + 1, [] => []
  | fuel + 1, l => l.take 64 :: toBlocksF fuel (l.drop 64)

def toBlocks (l : List Nat) : List (List Nat) := toBlocksF l.length l

/-- Combine big-endian groups of four bytes into 32-bit words. -/
def bytesToWords : List Nat → List Nat
  | a :: b :: c :: d :: rest => ((a <<< 24) ||| (b <<< 16) ||| (c <<< 8) ||| d) :: bytesToWords rest
  | _ => []

/-- Extend the 16-word message schedule by one word per fuel step. -/
def extendW : Nat → List Nat → List Nat
  | 0, ws => ws
  | n + 1, ws =>
    let i := ws.length
    let w := wadd (wadd (ws.getD (i - 16) 0) (ssig0 (ws.getD (i - 15) 0)))
                  (wadd (ws.getD (i - 7) 0) (ssig1 (ws.getD (i - 2) 0)))
    extendW n (ws ++ [w])

/-- Working state of the compression function: eight 32-bit words. -/
structure Hash8 where
  a : Nat
  b : Nat
  c : Nat
  d : Nat
  e : Nat
  f : Nat
  g : Nat
  h : Nat
deriving DecidableEq

def sha256round (st : Hash8) (kw : Nat × Nat) : Hash8 :=
  let t1 := wadd st.h (wadd (bsig1 st.e) (wadd (chf st.e st.f st.g) (wadd kw.1 kw.2)))
  let t2 := wadd (bsig0 st.a) (majf st.a st.b st.c)
  ⟨wadd t1 t2, st.a, st.b, st.c, wadd st.d t1, st.e, st.f, st.g⟩

def sha256compress (st : Hash8) (block : List Nat) : Hash8 :=
  let ws := extendW 48 (bytesToWords block)
  let r := (sha256K.zip ws).foldl sha256round st
  ⟨wadd st.a r.a, wadd st.b r.b, wadd st.c r.c, wadd st.d r.d,
   wadd st.e r.e, wadd st.f r.f, wadd st.g r.g, wadd st.h r.h⟩

def sha256init : Hash8 :=
  ⟨1779033703, 3144134277, 1013904242, 2773480762,
   1359893119, 2600822924, 528734635, 1541459225⟩

def wordToBytes (w : Nat) : List Nat :=
  [(w >>> 24) &&& 255, (w >>> 16) &&& 255, (w >>> 8) &&& 255, w &&& 255]

/-- SHA-256 of a byte list: the 32-byte digest.  This matches the NIST test
vectors for the empty message and for `"abc"`. -/
def sha256 (msg : List Nat) : List Nat :=
  let st := (toBlocks (sha256pad msg)).foldl sha256compress sha256init
  List.flatten ([st.a, st.b, st.c, st.d, st.e, st.f, st.g, st.h].map wordToBytes)

/-! ## Strings and identifiers -/

/-- Lowercase hex digit for a value below 16. -/
def hexDigit (n : Nat) : Char := if n < 10 then Char.ofNat (48 + n) else Char.ofNat (87 + n)

/-- Lowercase hex encoding of a byte list (Go `hex.EncodeToString`). -/
def hexEncode (bytes : List Nat) : List Char :=
  List.flatten (bytes.map fun b => [hexDigit (b / 16), hexDigit (b % 16)])

/-- UTF-8 bytes of one character. -/
def utf8Char (c : Char) : List Nat :=
  let n := c.toNat
  if n < 128 then [n]
  else if n < 2048 then [192 + n / 64, 128 + n % 64]
  else if n < 65536 then [224 + n / 4096, 128 + (n / 64) % 64, 128 + n % 64]
  else [240 + n / 262144, 128 + (n / 4096) % 64, 128 + (n / 64) % 64, 128 + n % 64]

/-- UTF-8 bytes of a string (Go `[]byte(s)`). -/
def utf8Bytes (s : String) : List Nat := List.flatten (s.data.map utf8Char)

/-- Go `unicode.IsSpace` on the Latin-1 range (space, tab, newline, vertical
tab, form feed, carriage return, NEL, NBSP); wider Unicode space classes do
not occur in the inputs considered here. -/
def isSpaceGo (c : Char) : Bool :=
  let n := c.toNat
  n = 32 || n = 9 || n = 10 || n = 11 || n = 12 || n = 13 || n = 133 || n = 160

/-- Go `strings.TrimSpace`: drop leading and trailing whitespace. -/
def trimSpace (s : String) : String :=
  String.mk (((s.data.dropWhile isSpaceGo).reverse.dropWhile isSpaceGo).reverse)

/-- Go `strings.ToLower` on the ASCII range (the only case mapping the
registry's inputs exercise); other characters are left unchanged. -/
def toLowerGo (s : String) : String :=
  String.mk (s.data.map fun c =>
    if 65 ≤ c.toNat ∧ c.toNat ≤ 90 then Char.ofNat (c.toNat + 32) else c)

/-- Embeds `repository.GenerateID`: trim all four fields, lowercase the name,
join with `|`, SHA-256 the bytes, return the first 10 hex characters. -/
def GenerateID (name url branch path : String) : String :=
  let name := toLowerGo (trimSpace name)
  let url := trimSpace url
  let branch := trimSpace branch
  let path := trimSpace path
  let input := name ++ "|" ++ url ++ "|" ++ branch ++ "|" ++ path
  let hash := sha256 (utf8Bytes input)
  String.mk ((hexEncode hash).take 10)

/-! ## Decimal rendering (Go `fmt.Sprintf("%s-%d", ...)`) -/

def digitChar (d : Nat) : Char := Char.ofNat (48 + d)

/-- Decimal digits of `n`, most significant first; fuel-based so the
recursion is structural.  Any fuel above `n` yields the true digits. -/
def natReprF : Nat → Nat → List Char
  | 0, _ => []
  | fuel + 1, n => if n < 10 then [digitChar n] else natReprF fuel (n / 10) ++ [digitChar (n % 10)]

/-- Decimal rendering of a natural number (Go `%d` on a non-negative int). -/
def natRepr (n : Nat) : String := String.mk (natReprF (n + 1) n)

/-- Value of a digit string, used to invert `natReprF`. -/
def digitsVal (cs : List Char) : Nat := cs.foldl (fun a c => a * 10 + (c.toNat - 48)) 0

/-! ## Registry (`repository.Manager`) -/

/-- Embeds `config.RepositoryConfig`: one persisted registry entry. -/
structure RepositoryConfig where
  id : String
  name : String
  path : String
  url : String
  branch : String
deriving DecidableEq

/-- Embeds `config.GlobalConfig`: the registry's global settings. -/
structure GlobalConfig where
  defaultBranch : String
  parallelOperations : Int
  defaultRemote : String
deriving DecidableEq

/-- The manager's registry state: the in-memory entry list (`m.Config.
Repositories`) and the persisted registry file's contents.  `config.
SaveConfig` is modelled as all-or-nothing: on success the file holds the
in-memory list, on failure it is untouched. -/
structure ManagerState where
  repositories : List RepositoryConfig
  persisted : List RepositoryConfig
deriving DecidableEq

/-- Results of the effectful steps `Manager.AddRepository` performs:
`Repository.Clone`, `Repository.SaveMetadata`, `config.SaveConfig`. -/
structure AddEnv where
  clone : Except String Unit
  saveMetadata : Except String Unit
  saveConfig : Except String Unit

/-- The sequence of names the disambiguation loop tries: the requested name
itself, then `name-1`, `name-2`, ... -/
def candidateName (name : String) : Nat → String
  | 0 => name
  | k + 1 => name ++ "-" ++ natRepr (k + 1)

/-- Index of the first free candidate at or after `i`, searching with the
given fuel; this is the unfolded form of the `for` loop in
`Manager.AddRepository` (which tries `name`, `name-1`, `name-2`, ... until
one is unused). -/
def firstFreeFrom (names : List String) (name : String) : Nat → Nat → Nat
  | 0, i => i
  | fuel + 1, i => if candidateName name i ∈ names then firstFreeFrom names name fuel (i + 1) else i

/-- The final disambiguated name `Manager.AddRepository` stores.  Fuel
`names.length + 1` always suffices: among the first `names.length + 1`
candidates one is free (they are pairwise distinct). -/
def uniqueName (names : List String) (name : String) : String :=
  candidateName name (firstFreeFrom names name (names.length + 1) 0)

/-- Embeds `Manager.AddRepository`: path-conflict check, name disambiguation,
id generation, optional clone, metadata save, append, persist. -/
def AddRepository (st : ManagerState) (env : AddEnv) (name url path branch : String)
    (noClone : Bool) : ManagerState × Except String RepositoryConfig :=
  if ∃ c ∈ st.repositories, c.path = path then
    (st, .error ("repository already exists at path: " ++ path))
  else
    let un := uniqueName (st.repositories.map (fun c => c.name)) name
    let id := GenerateID un url branch path
    let repoCfg : RepositoryConfig := ⟨id, un, path, url, branch⟩
    match (if noClone then Except.ok () else env.clone) with
    | .error e => (st, .error e)
    | .ok _ =>
      match env.saveMetadata with
      | .error e => (st, .error e)
      | .ok _ =>
        let newRepos := st.repositories ++ [repoCfg]
        match env.saveConfig with
        | .error e => ({ st with repositories := newRepos }, .error e)
        | .ok _ => (⟨newRepos, newRepos⟩, .ok repoCfg)

/-! ## Repository state machine (`Repository.UpdateStatus`) -/

/-- Embeds the `repository.Status` constants. -/
inductive Status where
  | clean
  | modified
  | ahead
  | behind
  | diverged
  | unknown
deriving DecidableEq

/-- Embeds `repository.StatusInfo`. -/
structure StatusInfo where
  current : Status
  branch : String
deriving DecidableEq

/-- Results of the git subprocesses `Repository.UpdateStatus` consults, one
field per command: `os.Stat` existence, `rev-parse --abbrev-ref HEAD` raw
output, `status --porcelain` raw output, `fetch`, the two `rev-list --count`
raw outputs, and the metadata write. -/
structure GitEnv where
  statExists : Bool
  revParse : Except String String
  statusPorcelain : Except String String
  fetch : Except String Unit
  revListAhead : Except String String
  revListBehind : Except String String
  saveMetadata : Except String Unit

/-- Embeds `Repository.GetCurrentBranch`: trimmed `rev-parse` output. -/
def GetCurrentBranch (env : GitEnv) : Except String String :=
  match env.revParse with
  | .error e => .error ("error getting current branch: " ++ e)
  | .ok out => .ok (trimSpace out)

/-- Embeds `Repository.HasLocalChanges`: nonempty porcelain output. -/
def HasLocalChanges (env : GitEnv) : Except String Bool :=
  match env.statusPorcelain with
  | .error e => .error ("error checking for local changes: " ++ e)
  | .ok out => .ok (out.length > 0)

/-- Embeds the `fmt.Sscanf(s, "%d", &n)` best-effort count parse in
`GetRemoteStatus`: leading decimal digits, `0` when there are none (a failed
scan leaves the count variable at zero). -/
def parseCount (s : String) : Nat :=
  (s.data.takeWhile fun c => 48 ≤ c.toNat && c.toNat ≤ 57).foldl
    (fun a c => a * 10 + (c.toNat - 48)) 0

/-- The remote name `GetRemoteStatus` uses in its rev-list ranges: the
repository's configured branch field when nonempty, otherwise `origin`. -/
def remoteForComparison (cfgBranch : String) : String :=
  if cfgBranch ≠ "" then cfgBranch else "origin"

/-- Argument vector of the ahead-count query in `GetRemoteStatus`. -/
def revListAheadArgs (path rem br : String) : List String :=
  ["-C", path, "rev-list", "--count", rem ++ "/" ++ br ++ ".." ++ br]

/-- Argument vector of the behind-count query in `GetRemoteStatus`. -/
def revListBehindArgs (path rem br : String) : List String :=
  ["-C", path, "rev-list", "--count", br ++ ".." ++ rem ++ "/" ++ br]

/-- The two rev-list commands `Repository.GetRemoteStatus` issues.  The Go
method's receiver carries only the repository's own entry; the registry's
global settings are threaded in here so that their irrelevance is a provable
statement rather than an accident of scope. -/
def GetRemoteStatusCommands (g : GlobalConfig) (cfgBranch path curBranch : String) :
    List String × List String :=
  let _ := g
  let rem := remoteForComparison cfgBranch
  (revListAheadArgs path rem curBranch, revListBehindArgs path rem curBranch)

/-- Embeds `Repository.GetRemoteStatus`: current branch, then the ahead and
behind counts, each parsed best-effort from the trimmed rev-list output. -/
def GetRemoteStatus (env : GitEnv) : Except String (Nat × Nat) :=
  match GetCurrentBranch env with
  | .error e => .error e
  | .ok _ =>
    match env.revListAhead with
    | .error e => .error ("error checking ahead status: " ++ e)
    | .ok outA =>
      match env.revListBehind with
      | .error e => .error ("error checking behind status: " ++ e)
      | .ok outB => .ok (parseCount (trimSpace outA), parseCount (trimSpace outB))

/-- Embeds `Repository.UpdateStatus`: returns the updated status record and
the method's error result. -/
def UpdateStatus (st : StatusInfo) (env : GitEnv) : StatusInfo × Except String Unit :=
  if env.statExists = false then
    ({ st with current := .unknown }, .ok ())
  else
    match GetCurrentBranch env with
    | .error e => (st, .error e)
    | .ok branch =>
      let st := { st with branch := branch }
      match HasLocalChanges env with
      | .error e => (st, .error e)
      | .ok hasChanges =>
        if hasChanges then
          ({ st with current := .modified }, env.saveMetadata)
        else
          match env.fetch with
          | .error _ => ({ st with current := .clean }, .ok ())
          | .ok _ =>
            match GetRemoteStatus env with
            | .error e => (st, .error e)
            | .ok (ahead, behind) =>
              let c := if ahead > 0 ∧ behind > 0 then Status.diverged
                       else if ahead > 0 then Status.ahead
                       else if behind > 0 then Status.behind
                       else Status.clean
              ({ st with current := c }, env.saveMetadata)

/-! ## Snapshot engine (`snapshot.Manager`) -/

/-- Embeds `snapshot.RepositoryState`: the frozen per-repository record. -/
structure RepositoryState where
  id : String
  name : String
  path : String
  branch : String
  commitHash : String
  status : String
deriving DecidableEq

/-- Embeds `snapshot.Snapshot`; the creation time is an abstract tick. -/
structure Snapshot where
  id : String
  createdAt : Nat
  description : String
  repositories : List RepositoryState
deriving DecidableEq

/-- Embeds `snapshot.ApplyOptions`. -/
structure ApplyOptions where
  dryRun : Bool
  force : Bool
  repositories : List String

/-- Results of the per-repository operations `ApplySnapshot` performs, keyed
by repository name (and the branch or commit argument where one is passed). -/
structure ApplyEnv where
  getRepo : String → Except String Unit
  hasLocalChanges : String → Except String Bool
  checkoutBranch : String → String → Except String Unit
  resetToCommit : String → String → Except String Unit
  updateStatus : String → Except String Unit

/-- One mutating git invocation issued by the apply loop. -/
inductive ApplyOp where
  | checkout (repo branch : String)
  | reset (repo hash : String)
  | update (repo : String)
deriving DecidableEq

/-- The full operation sequence a successful apply performs on one entry. -/
def repoOps (r : RepositoryState) : List ApplyOp :=
  [.checkout r.name r.branch, .reset r.name r.commitHash, .update r.name]

/-- Every step of the apply loop succeeds on `r`. -/
def okOn (env : ApplyEnv) (r : RepositoryState) : Prop :=
  env.getRepo r.name = .ok () ∧ env.checkoutBranch r.name r.branch = .ok () ∧
  env.resetToCommit r.name r.commitHash = .ok () ∧ env.updateStatus r.name = .ok ()

/-- The target-narrowing step of `ApplySnapshot`: filter by name when a
filter list is given, else all snapshot entries, in snapshot order. -/
def filterTargets (reps : List RepositoryState) (filter : List String) : List RepositoryState :=
  if filter.length > 0 then reps.filter (fun r => filter.contains r.name) else reps

/-- The pre-flight dirtiness scan of `ApplySnapshot` (the `!options.Force`
loop): stops at the first lookup error, check error, or dirty repository. -/
def preflight (env : ApplyEnv) : List RepositoryState → Except String Unit
  | [] => .ok ()
  | r :: rest =>
    match env.getRepo r.name with
    | .error e => .error ("error getting repository " ++ r.name ++ ": " ++ e)
    | .ok _ =>
      match env.hasLocalChanges r.name with
      | .error e => .error ("error checking for changes in " ++ r.name ++ ": " ++ e)
      | .ok true => .error ("repository " ++ r.name ++ " has uncommitted changes, use --force to override")
      | .ok false => preflight env rest

/-- The sequential apply loop of `ApplySnapshot`: for each entry, checkout,
hard reset, status refresh; the first failure aborts the remainder.  The
returned list records every mutating invocation that was issued, in order. -/
def applyLoop (env : ApplyEnv) (dryRun : Bool) : List RepositoryState → List ApplyOp × Except String Unit
  | [] => ([], .ok ())
  | r :: rest =>
    match env.getRepo r.name with
    | .error e => ([], .error ("error getting repository " ++ r.name ++ ": " ++ e))
    | .ok _ =>
      if dryRun then applyLoop env dryRun rest
      else
        match env.checkoutBranch r.name r.branch with
        | .error e =>
          ([.checkout r.name r.branch],
           .error ("error checking out branch " ++ r.branch ++ " in repository " ++ r.name ++ ": " ++ e))
        | .ok _ =>
          match env.resetToCommit r.name r.commitHash with
          | .error e =>
            ([.checkout r.name r.branch, .reset r.name r.commitHash],
             .error ("error resetting to commit " ++ r.commitHash ++ " in repository " ++ r.name ++ ": " ++ e))
          | .ok _ =>
            match env.updateStatus r.name with
            | .error e =>
              (repoOps r, .error ("error updating repository status: " ++ e))
            | .ok _ =>
              let (ops, res) := applyLoop env dryRun rest
              (repoOps r ++ ops, res)

/-- Embeds `snapshot.Manager.ApplySnapshot`: narrow targets, pre-flight scan
unless forced, then the sequential apply loop. -/
def ApplySnapshot (snap : Snapshot) (env : ApplyEnv) (o : ApplyOptions) :
    List ApplyOp × Except String Unit :=
  let targets := filterTargets snap.repositories o.repositories
  if o.force = false then
    match preflight env targets with
    | .error e => ([], .error e)
    | .ok _ => applyLoop env o.dryRun targets
  else
    applyLoop env o.dryRun targets

/-! ## Snapshot persistence (`SaveSnapshot` / `LoadSnapshot`) -/

/-- The JSON fragment the snapshot files use. -/
inductive Json where
  | str : String → Json
  | num : Nat → Json
  | arr : List Json → Json
  | obj : List (String × Json) → Json

/-- First value bound to a key in an object's field list. -/
def jLookup : List (String × Json) → String → Option Json
  | [], _ => none
  | (k, v) :: rest, key => if k = key then some v else jLookup rest key

def asStr : Json → Option String
  | .str s => some s
  | _ => none

def asNum : Json → Option Nat
  | .num n => some n
  | _ => none

def asArr : Json → Option (List Json)
  | .arr l => some l
  | _ => none

/-- Marshalling of one `RepositoryState`, following the struct's json tags. -/
def encodeRepoState (r : RepositoryState) : Json :=
  .obj [("id", .str r.id), ("name", .str r.name), ("path", .str r.path),
        ("branch", .str r.branch), ("commit_hash", .str r.commitHash),
        ("status", .str r.status)]

/-- Unmarshalling of one `RepositoryState`. -/
def decodeRepoState (j : Json) : Option RepositoryState :=
  match j with
  | .obj fields => do
    let id ← jLookup fields "id" >>= asStr
    let name ← jLookup fields "name" >>= asStr
    let path ← jLookup fields "path" >>= asStr
    let branch ← jLookup fields "branch" >>= asStr
    let commitHash ← jLookup fields "commit_hash" >>= asStr
    let status ← jLookup fields "status" >>= asStr
    pure ⟨id, name, path, branch, commitHash, status⟩
  | _ => none

def decodeRepoStates : List Json → Option (List RepositoryState)
  | [] => some []
  | j :: rest =>
    match decodeRepoState j, decodeRepoStates rest with
    | some r, some rs => some (r :: rs)
    | _, _ => none

/-- Marshalling of a `Snapshot`, following the struct's json tags. -/
def encodeSnapshot (s : Snapshot) : Json :=
  .obj [("id", .str s.id), ("created_at", .num s.createdAt),
        ("description", .str s.description),
        ("repositories", .arr (s.repositories.map encodeRepoState))]

/-- Unmarshalling of a `Snapshot`. -/
def decodeSnapshot (j : Json) : Option Snapshot :=
  match j with
  | .obj fields => do
    let id ← jLookup fields "id" >>= asStr
    let createdAt ← jLookup fields "created_at" >>= asNum
    let description ← jLookup fields "description" >>= asStr
    let reps ← jLookup fields "repositories" >>= asArr
    let repositories ← decodeRepoStates reps
    pure ⟨id, createdAt, description, repositories⟩
  | _ => none

/-- The snapshots directory: file contents keyed by snapshot id. -/
def SnapshotStore := List (String × Json)

/-- Embeds `Manager.SaveSnapshot`: marshal and write the file keyed by the
snapshot's id (`os.WriteFile` replaces any previous contents). -/
def SaveSnapshot (store : SnapshotStore) (s : Snapshot) : SnapshotStore :=
  (s.id, encodeSnapshot s) :: store

/-- Embeds `Manager.LoadSnapshot`: read the file keyed by `id` and
unmarshal it. -/
def LoadSnapshot (store : SnapshotStore) (id : String) : Except String Snapshot :=
  match jLookup store id with
  | none => .error ("snapshot not found: " ++ id)
  | some j =>
    match decodeSnapshot j with
    | none => .error "error unmarshaling snapshot"
    | some s => .ok s

/-! ## Synchronization run exit condition (`cmd.runSync`) -/

/-- One private result slot of the sync worker pool. -/
structure SyncResult where
  name : String
  success : Bool
  notExist : Bool
deriving DecidableEq

/-- The success tally `runSync` computes in its report pass. -/
def successCount (rs : List SyncResult) : Nat :=
  (rs.filter (fun r => r.success)).length

/-- Embeds the exit condition at the end of `runSync`: error when
`successCount < len(repositories) && (!autoRemove || successCount == 0)`. -/
def runSyncExit (autoRemove : Bool) (rs : List SyncResult) : Except String Unit :=
  if successCount rs < rs.length ∧ (autoRemove = false ∨ successCount rs = 0) then
    .error "One or more repositories failed to synchronize"
  else
    .ok ()

end Mctl

namespace Mctl

/-! ## Helper lemmas -/

theorem hexEncode_length (bs : List Nat) : (hexEncode bs).length = 2 * bs.length := by
  induction bs with
  | nil => rfl
  | cons b rest ih => simp only [hexEncode, List.map_cons, List.flatten_cons] at ih ⊢; simp [ih]; omega

theorem sha256_length (msg : List Nat) : (sha256 msg).length = 32 := by
  simp [sha256, wordToBytes]

theorem GenerateID_length (name url branch path : String) :
    (GenerateID name url branch path).length = 10 := by
  have h : (GenerateID name url branch path).length
      = ((hexEncode (sha256 (utf8Bytes
          (toLowerGo (trimSpace name) ++ "|" ++ trimSpace url ++ "|" ++ trimSpace branch
            ++ "|" ++ trimSpace path)))).take 10).length := rfl
  rw [h, List.length_take, hexEncode_length, sha256_length]
  norm_num [Nat.min_def]

theorem GenerateID_eq_of_norm {n n' u u' b b' p p' : String}
    (hn : toLowerGo (trimSpace n) = toLowerGo (trimSpace n'))
    (hu : trimSpace u = trimSpace u') (hb : trimSpace b = trimSpace b')
    (hp : trimSpace p = trimSpace p') :
    GenerateID n u b p = GenerateID n' u' b' p' := by
  unfold GenerateID
  rw [hn, hu, hb, hp]

/-- Claim C5: `GenerateID` is a pure function of its four inputs after
normalization (trim whitespace on all four, lowercase the name only),
returning a fixed-length 10-character hex prefix of the digest of the
joined normalized fields; in particular `GenerateID("Repo", " url ", "",
"p") = GenerateID("repo", "url", "", "p")`. -/
theorem generateID_normalized_pure :
    (∀ name url branch path, (GenerateID name url branch path).length = 10)
    ∧ (∀ n n' u u' b b' p p' : String,
        toLowerGo (trimSpace n) = toLowerGo (trimSpace n') → trimSpace u = trimSpace u' →
        trimSpace b = trimSpace b' → trimSpace p = trimSpace p' →
        GenerateID n u b p = GenerateID n' u' b' p')
    ∧ GenerateID "Repo" " url " "" "p" = GenerateID "repo" "url" "" "p" :=
  ⟨GenerateID_length, fun _ _ _ _ _ _ _ _ hn hu hb hp => GenerateID_eq_of_norm hn hu hb hp,
   GenerateID_eq_of_norm (by decide) (by decide) (by decide) (by decide)⟩

theorem generateID_normalized_pure_witness :
    GenerateID " Svc " "u" "b" "p" = GenerateID "svc" "u" "b" "p" :=
  generateID_normalized_pure.2.1 " Svc " "svc" "u" "u" "b" "b" "p" "p"
    (by decide) (by decide) (by decide) (by decide)

end Mctl

namespace Mctl

theorem successCount_le (rs : List SyncResult) : successCount rs ≤ rs.length :=
  List.length_filter_le _ _

theorem successCount_eq_length_iff (rs : List SyncResult) :
    successCount rs = rs.length ↔ ∀ r ∈ rs, r.success = true := by
  unfold successCount
  rw [List.filter_length_eq_length]

theorem successCount_pos_iff (rs : List SyncResult) :
    0 < successCount rs ↔ ∃ r ∈ rs, r.success = true := by
  unfold successCount
  rw [List.length_pos_iff_exists_mem]
  constructor
  · rintro ⟨r, hr⟩
    rw [List.mem_filter] at hr
    exact ⟨r, hr.1, hr.2⟩
  · rintro ⟨r, hr, hs⟩
    exact ⟨r, List.mem_filter.2 ⟨hr, hs⟩⟩

/-- Claim C9: the synchronization run succeeds exactly when every repository
in the batch succeeded, or automatic removal was enabled and at least one
repository succeeded; in every other case `runSync` returns an error. -/
theorem runSync_overall_success_iff (autoRemove : Bool) (rs : List SyncResult) :
    runSyncExit autoRemove rs = .ok () ↔
      ((∀ r ∈ rs, r.success = true) ∨ (autoRemove = true ∧ ∃ r ∈ rs, r.success = true)) := by
  have hle := successCount_le rs
  unfold runSyncExit
  split_ifs with h
  · simp only [reduceCtorEq, false_iff]
    rintro (hall | ⟨har, hex⟩)
    · exact absurd ((successCount_eq_length_iff rs).2 hall) (by omega)
    · rcases h.2 with hfalse | hzero
      · rw [har] at hfalse; cases hfalse
      · exact absurd ((successCount_pos_iff rs).2 hex) (by omega)
  · simp only [true_iff]
    by_cases hall : ∀ r ∈ rs, r.success = true
    · exact Or.inl hall
    · right
      have hlt : successCount rs < rs.length := by
        rcases Nat.lt_or_ge (successCount rs) rs.length with hl | hg
        · exact hl
        · exact absurd ((successCount_eq_length_iff rs).1 (by omega)) hall
      rw [not_and_or] at h
      rcases h with hcontra | hside
      · omega
      · rw [not_or] at hside
        refine ⟨?_, (successCount_pos_iff rs).1 (by omega)⟩
        cases har : autoRemove with
        | false => exact absurd har hside.1
        | true => rfl

/-- Claim C10: when the configured branch field is nonempty,
`GetRemoteStatus` uses it in the remote position of both rev-list ranges
(`<cfgBranch>/<currentBranch>` against `<currentBranch>`); the remote name
`origin` appears only when that field is empty; the registry's global
default remote is never consulted. -/
theorem getRemoteStatus_uses_branch_as_remote (g g' : GlobalConfig)
    (cfgBranch path cur : String) :
    (cfgBranch ≠ "" →
      GetRemoteStatusCommands g cfgBranch path cur =
        (["-C", path, "rev-list", "--count", cfgBranch ++ "/" ++ cur ++ ".." ++ cur],
         ["-C", path, "rev-list", "--count", cur ++ ".." ++ cfgBranch ++ "/" ++ cur]))
    ∧ (cfgBranch = "" →
      GetRemoteStatusCommands g cfgBranch path cur =
        (["-C", path, "rev-list", "--count", "origin" ++ "/" ++ cur ++ ".." ++ cur],
         ["-C", path, "rev-list", "--count", cur ++ ".." ++ "origin" ++ "/" ++ cur]))
    ∧ GetRemoteStatusCommands g cfgBranch path cur = GetRemoteStatusCommands g' cfgBranch path cur := by
  refine ⟨fun h => ?_, fun h => ?_, rfl⟩
  · simp [GetRemoteStatusCommands, remoteForComparison, revListAheadArgs, revListBehindArgs, h]
  · subst h
    simp [GetRemoteStatusCommands, remoteForComparison, revListAheadArgs, revListBehindArgs]

theorem getRemoteStatus_uses_branch_as_remote_witness :
    GetRemoteStatusCommands ⟨"main", 4, "upstream"⟩ "dev" "r" "cur" =
      (["-C", "r", "rev-list", "--count", "dev" ++ "/" ++ "cur" ++ ".." ++ "cur"],
       ["-C", "r", "rev-list", "--count", "cur" ++ ".." ++ "dev" ++ "/" ++ "cur"]) :=
  (getRemoteStatus_uses_branch_as_remote ⟨"main", 4, "upstream"⟩ ⟨"x", 1, "y"⟩ "dev" "r" "cur").1
    (by decide)

theorem decodeRepoState_encode (r : RepositoryState) :
    decodeRepoState (encodeRepoState r) = some r := rfl

theorem decodeRepoStates_map (l : List RepositoryState) :
    decodeRepoStates (l.map encodeRepoState) = some l := by
  induction l with
  | nil => rfl
  | cons hd tl ih => simp [decodeRepoStates, decodeRepoState_encode, ih]

theorem decodeSnapshot_encode (s : Snapshot) :
    decodeSnapshot (encodeSnapshot s) = some s := by
  have h : decodeSnapshot (encodeSnapshot s) =
      (decodeRepoStates (s.repositories.map encodeRepoState)).bind
        (fun reps => some ⟨s.id, s.createdAt, s.description, reps⟩) := rfl
  rw [h, decodeRepoStates_map]
  rfl

/-- Claim C8: saving a snapshot and loading it back by its id yields the
same snapshot, in particular a repository-state list identical (ids, names,
paths, branches, commit hashes, statuses, order) to the one captured. -/
theorem snapshot_roundtrip (store : SnapshotStore) (s : Snapshot) :
    LoadSnapshot (SaveSnapshot store s) s.id = .ok s := by
  have hlook : jLookup (SaveSnapshot store s) s.id = some (encodeSnapshot s) := by
    simp [SaveSnapshot, jLookup]
  have h : LoadSnapshot (SaveSnapshot store s) s.id =
      match decodeSnapshot (encodeSnapshot s) with
      | none => .error "error unmarshaling snapshot"
      | some s' => .ok s' := by
    unfold LoadSnapshot
    rw [hlook]
  rw [h, decodeSnapshot_encode]

end Mctl

namespace Mctl

/-- Claim C1: `UpdateStatus` derives the status deterministically: an absent
working directory yields `UNKNOWN`; local changes yield `MODIFIED` no matter
what the remote comparison would say; a clean repository whose remote
comparison succeeds gets `DIVERGED` when ahead and behind are both positive,
`AHEAD` when only ahead is, `BEHIND` when only behind is, `CLEAN` otherwise. -/
theorem updateStatus_status_table (st : StatusInfo) (env : GitEnv) :
    (env.statExists = false → (UpdateStatus st env).1.current = Status.unknown)
    ∧ (∀ br out, env.statExists = true → env.revParse = .ok br →
        env.statusPorcelain = .ok out → out.length > 0 →
        (UpdateStatus st env).1.current = Status.modified)
    ∧ (∀ br out outA outB, env.statExists = true → env.revParse = .ok br →
        env.statusPorcelain = .ok out → out.length = 0 →
        env.fetch = .ok () → env.revListAhead = .ok outA → env.revListBehind = .ok outB →
        (UpdateStatus st env).1.current =
          (if parseCount (trimSpace outA) > 0 ∧ parseCount (trimSpace outB) > 0 then Status.diverged
           else if parseCount (trimSpace outA) > 0 then Status.ahead
           else if parseCount (trimSpace outB) > 0 then Status.behind
           else Status.clean)) := by
  refine ⟨fun h => ?_, fun br out h1 h2 h3 h4 => ?_, fun br out outA outB h1 h2 h3 h4 h5 h6 h7 => ?_⟩
  · simp [UpdateStatus, h]
  · simp [UpdateStatus, GetCurrentBranch, HasLocalChanges, h1, h2, h3, h4]
  · simp [UpdateStatus, GetCurrentBranch, HasLocalChanges, GetRemoteStatus,
      h1, h2, h3, h4, h5, h6, h7]

theorem updateStatus_status_table_witness :
    (UpdateStatus ⟨Status.unknown, "b"⟩
        ⟨false, .ok "m", .ok "", .ok (), .ok "0", .ok "0", .ok ()⟩).1.current = Status.unknown
    ∧ (UpdateStatus ⟨Status.unknown, "b"⟩
        ⟨true, .ok "m", .ok " M f.go", .ok (), .ok "7", .ok "9", .ok ()⟩).1.current = Status.modified
    ∧ (UpdateStatus ⟨Status.unknown, "b"⟩
        ⟨true, .ok "m", .ok "", .ok (), .ok "2", .ok "0", .ok ()⟩).1.current = Status.ahead
    ∧ (UpdateStatus ⟨Status.unknown, "b"⟩
        ⟨true, .ok "m", .ok "", .ok (), .ok "0", .ok "3", .ok ()⟩).1.current = Status.behind
    ∧ (UpdateStatus ⟨Status.unknown, "b"⟩
        ⟨true, .ok "m", .ok "", .ok (), .ok "2", .ok "3", .ok ()⟩).1.current = Status.diverged
    ∧ (UpdateStatus ⟨Status.unknown, "b"⟩
        ⟨true, .ok "m", .ok "", .ok (), .ok "0", .ok "0", .ok ()⟩).1.current = Status.clean := by
  refine ⟨(updateStatus_status_table _ _).1 rfl,
    (updateStatus_status_table _ _).2.1 "m" " M f.go" rfl rfl rfl (by decide), ?_, ?_, ?_, ?_⟩
  · rw [(updateStatus_status_table _ _).2.2 "m" "" "2" "0" rfl rfl rfl rfl rfl rfl rfl]; decide
  · rw [(updateStatus_status_table _ _).2.2 "m" "" "0" "3" rfl rfl rfl rfl rfl rfl rfl]; decide
  · rw [(updateStatus_status_table _ _).2.2 "m" "" "2" "3" rfl rfl rfl rfl rfl rfl rfl]; decide
  · rw [(updateStatus_status_table _ _).2.2 "m" "" "0" "0" rfl rfl rfl rfl rfl rfl rfl]; decide

/-- Claim C2 counterexample: a clean repository whose fetch succeeds but
whose ahead rev-list query fails makes `UpdateStatus` return an error (the
remote-comparison failure is propagated), and the status is not set to
`CLEAN` — contrary to the claim that such a failure yields `CLEAN` with no
error. -/
theorem updateStatus_remote_failure_cex :
    (UpdateStatus ⟨Status.unknown, "b0"⟩
        ⟨true, .ok "main", .ok "", .ok (), .error "boom", .ok "0", .ok ()⟩).2 ≠ .ok ()
    ∧ (UpdateStatus ⟨Status.unknown, "b0"⟩
        ⟨true, .ok "main", .ok "", .ok (), .error "boom", .ok "0", .ok ()⟩).1.current
        ≠ Status.clean := by
  decide

/-- Claim C2 (amended): for a clean repository, a *fetch* failure is
swallowed — the status becomes `CLEAN` and no error is returned — and a
count-parse failure yields count 0 rather than an error; but a failure of
the ahead or behind rev-list query itself is propagated to the caller as an
error, with the status field left as it was. -/
theorem updateStatus_remote_failure_amended (st : StatusInfo) (env : GitEnv) :
    (∀ br out e, env.statExists = true → env.revParse = .ok br →
      env.statusPorcelain = .ok out → out.length = 0 → env.fetch = .error e →
      UpdateStatus st env = ({ st with branch := trimSpace br, current := Status.clean }, .ok ()))
    ∧ (∀ br out e, env.statExists = true → env.revParse = .ok br →
      env.statusPorcelain = .ok out → out.length = 0 → env.fetch = .ok () →
      env.revListAhead = .error e →
      UpdateStatus st env =
        ({ st with branch := trimSpace br }, .error ("error checking ahead status: " ++ e)))
    ∧ (∀ br out outA e, env.statExists = true → env.revParse = .ok br →
      env.statusPorcelain = .ok out → out.length = 0 → env.fetch = .ok () →
      env.revListAhead = .ok outA → env.revListBehind = .error e →
      UpdateStatus st env =
        ({ st with branch := trimSpace br }, .error ("error checking behind status: " ++ e))) := by
  refine ⟨fun br out e h1 h2 h3 h4 h5 => ?_, fun br out e h1 h2 h3 h4 h5 h6 => ?_,
    fun br out outA e h1 h2 h3 h4 h5 h6 h7 => ?_⟩
  · simp [UpdateStatus, GetCurrentBranch, HasLocalChanges, h1, h2, h3, h4, h5]
  · simp [UpdateStatus, GetCurrentBranch, HasLocalChanges, GetRemoteStatus, h1, h2, h3, h4, h5, h6]
  · simp [UpdateStatus, GetCurrentBranch, HasLocalChanges, GetRemoteStatus,
      h1, h2, h3, h4, h5, h6, h7]

theorem updateStatus_remote_failure_amended_witness :
    UpdateStatus ⟨Status.unknown, "b0"⟩
        ⟨true, .ok "main", .ok "", .error "offline", .ok "0", .ok "0", .ok ()⟩ =
      (⟨Status.clean, "main"⟩, .ok ())
    ∧ UpdateStatus ⟨Status.unknown, "b0"⟩
        ⟨true, .ok "main", .ok "", .ok (), .ok "2", .error "gone", .ok ()⟩ =
      (⟨Status.unknown, "main"⟩, .error ("error checking behind status: " ++ "gone")) := by
  constructor
  · rw [(updateStatus_remote_failure_amended _ _).1 "main" "" "offline" rfl rfl rfl rfl rfl]
    decide
  · rw [(updateStatus_remote_failure_amended _ _).2.2 "main" "" "2" "gone"
      rfl rfl rfl rfl rfl rfl rfl]
    decide

end Mctl

namespace Mctl

theorem toNat_ofNat_lt {n : Nat} (h : n < 55296) : (Char.ofNat n).toNat = n := by
  unfold Char.ofNat
  rw [dif_pos (Or.inl h : n.isValidChar)]
  rfl

theorem digitChar_toNat {d : Nat} (h : d < 10) : (digitChar d).toNat = 48 + d :=
  toNat_ofNat_lt (by omega)

theorem digitsVal_append (xs : List Char) (c : Char) :
    digitsVal (xs ++ [c]) = 10 * digitsVal xs + (c.toNat - 48) := by
  unfold digitsVal
  rw [List.foldl_append]
  simp only [List.foldl]
  omega

theorem digitsVal_natReprF : ∀ fuel n, n < fuel → digitsVal (natReprF fuel n) = n := by
  intro fuel
  induction fuel with
  | zero => intro n h; exact absurd h (Nat.not_lt_zero n)
  | succ f ih =>
    intro n h
    by_cases h10 : n < 10
    · simp only [natReprF, if_pos h10]
      unfold digitsVal
      simp only [List.foldl]
      rw [digitChar_toNat h10]
      omega
    · have hdiv : n / 10 < f := by
        have h2 : n / 10 < n := Nat.div_lt_self (by omega) (by omega)
        omega
      simp only [natReprF, if_neg h10]
      rw [digitsVal_append, ih (n / 10) hdiv, digitChar_toNat (Nat.mod_lt n (by omega))]
      omega

theorem natReprF_inj {n m : Nat} (h : natReprF (n + 1) n = natReprF (m + 1) m) : n = m := by
  have hv := congrArg digitsVal h
  rwa [digitsVal_natReprF _ _ (Nat.lt_succ_self n),
    digitsVal_natReprF _ _ (Nat.lt_succ_self m)] at hv

theorem string_data_append (s t : String) : (s ++ t).data = s.data ++ t.data := by
  cases s
  cases t
  rfl

theorem candidateName_succ_data (name : String) (k : Nat) :
    (candidateName name (k + 1)).data = name.data ++ ('-' :: natReprF (k + 2) (k + 1)) := by
  show ((name ++ "-") ++ natRepr (k + 1)).data = _
  rw [string_data_append, string_data_append, List.append_assoc]
  rfl

theorem candidateName_succ_len (name : String) (k : Nat) :
    name.data.length < (candidateName name (k + 1)).data.length := by
  rw [candidateName_succ_data]
  simp only [List.length_append, List.length_cons]
  omega

theorem candidateName_inj (name : String) : ∀ {i j : Nat},
    candidateName name i = candidateName name j → i = j := by
  intro i j h
  cases i with
  | zero =>
    cases j with
    | zero => rfl
    | succ j =>
      exfalso
      have hlt := candidateName_succ_len name j
      rw [← h] at hlt
      simp only [candidateName] at hlt
      exact Nat.lt_irrefl _ hlt
  | succ i =>
    cases j with
    | zero =>
      exfalso
      have hlt := candidateName_succ_len name i
      rw [h] at hlt
      simp only [candidateName] at hlt
      exact Nat.lt_irrefl _ hlt
    | succ j =>
      have hd := congrArg String.data h
      rw [candidateName_succ_data, candidateName_succ_data, List.append_right_inj] at hd
      injection hd with h1 h2
      exact natReprF_inj h2

theorem exists_free_candidate (names : List String) (name : String) :
    ∃ k, k ≤ names.length ∧ candidateName name k ∉ names := by
  by_contra hc
  push_neg at hc
  have hsub : ((List.range (names.length + 1)).map (candidateName name)) ⊆ names := by
    intro x hx
    rw [List.mem_map] at hx
    obtain ⟨k, hk, rfl⟩ := hx
    rw [List.mem_range] at hk
    exact hc k (by omega)
  have hinj : Function.Injective (candidateName name) := fun _ _ hab => candidateName_inj name hab
  have hnd := (List.nodup_range (names.length + 1)).map hinj
  have hlen := (List.subperm_of_subset hnd hsub).length_le
  rw [List.length_map, List.length_range] at hlen
  omega

theorem firstFreeFrom_spec (names : List String) (name : String) :
    ∀ fuel i, (∃ k, i ≤ k ∧ k < i + fuel ∧ candidateName name k ∉ names) →
      candidateName name (firstFreeFrom names name fuel i) ∉ names
      ∧ i ≤ firstFreeFrom names name fuel i
      ∧ ∀ j, i ≤ j → j < firstFreeFrom names name fuel i → candidateName name j ∈ names := by
  intro fuel
  induction fuel with
  | zero =>
    rintro i ⟨k, hk1, hk2, -⟩
    exact absurd hk2 (by omega)
  | succ f ih =>
    rintro i ⟨k, hk1, hk2, hkfree⟩
    by_cases hmem : candidateName name i ∈ names
    · have hki : i ≠ k := fun he => hkfree (he ▸ hmem)
      have hrec := ih (i + 1) ⟨k, by omega, by omega, hkfree⟩
      have heq : firstFreeFrom names name (f + 1) i = firstFreeFrom names name f (i + 1) := by
        simp only [firstFreeFrom, if_pos hmem]
      rw [heq]
      refine ⟨hrec.1, by have := hrec.2.1; omega, ?_⟩
      intro j hj1 hj2
      rcases Nat.eq_or_lt_of_le hj1 with rfl | hlt
      · exact hmem
      · exact hrec.2.2 j (by omega) hj2
    · have heq : firstFreeFrom names name (f + 1) i = i := by
        simp only [firstFreeFrom, if_neg hmem]
      rw [heq]
      exact ⟨hmem, Nat.le_refl i, fun j hj1 hj2 => absurd hj2 (by omega)⟩

theorem uniqueName_spec (names : List String) (name : String) :
    uniqueName names name ∉ names
    ∧ ∃ k, uniqueName names name = candidateName name k
        ∧ ∀ j, j < k → candidateName name j ∈ names := by
  obtain ⟨k, hk, hfree⟩ := exists_free_candidate names name
  have h := firstFreeFrom_spec names name (names.length + 1) 0 ⟨k, Nat.zero_le k, by omega, hfree⟩
  exact ⟨h.1, firstFreeFrom names name (names.length + 1) 0, rfl,
    fun j hj => h.2.2 j (Nat.zero_le j) hj⟩

/-- Claim C6: `AddRepository` leaves the persisted registry unchanged on
every error return; on a path conflict it fails with the conflict error and
changes nothing, and on a clone failure it returns the clone error with the
whole state untouched. -/
theorem addRepository_error_leaves_registry (st : ManagerState) (env : AddEnv)
    (name url path branch : String) (noClone : Bool) :
    (∀ e, (AddRepository st env name url path branch noClone).2 = .error e →
      (AddRepository st env name url path branch noClone).1.persisted = st.persisted)
    ∧ ((∃ c ∈ st.repositories, c.path = path) →
      AddRepository st env name url path branch noClone =
        (st, .error ("repository already exists at path: " ++ path)))
    ∧ (¬ (∃ c ∈ st.repositories, c.path = path) → noClone = false →
      ∀ e, env.clone = .error e →
      AddRepository st env name url path branch noClone = (st, .error e)) := by
  refine ⟨?_, fun hconf => ?_, fun hconf hnc e hcl => ?_⟩
  · intro e he
    unfold AddRepository at he ⊢
    by_cases hconf : ∃ c ∈ st.repositories, c.path = path
    · simp only [if_pos hconf]
    · simp only [if_neg hconf] at he ⊢
      cases hcl : (if noClone then Except.ok () else env.clone) with
      | error e2 => simp only [hcl]
      | ok u =>
        cases u
        simp only [hcl] at he ⊢
        cases hsm : env.saveMetadata with
        | error e2 => simp only [hsm]
        | ok u2 =>
          cases u2
          simp only [hsm] at he ⊢
          cases hsc : env.saveConfig with
          | error e2 => simp only [hsc]
          | ok u3 =>
            cases u3
            simp only [hsc] at he
            exact absurd he (by simp)
  · unfold AddRepository
    simp only [if_pos hconf]
  · unfold AddRepository
    simp only [if_neg hconf, hnc, Bool.false_eq_true, if_false, hcl]

theorem addRepository_error_leaves_registry_witness :
    AddRepository ⟨[⟨"i", "n", "p", "u", "b"⟩], [⟨"i", "n", "p", "u", "b"⟩]⟩
        ⟨.ok (), .ok (), .ok ()⟩ "n2" "u2" "p" "b2" true
      = (⟨[⟨"i", "n", "p", "u", "b"⟩], [⟨"i", "n", "p", "u", "b"⟩]⟩,
         .error ("repository already exists at path: " ++ "p"))
    ∧ AddRepository ⟨[], []⟩ ⟨.error "clone failed", .ok (), .ok ()⟩ "n" "u" "p" "b" false
      = (⟨[], []⟩, .error "clone failed") := by
  constructor
  · exact (addRepository_error_leaves_registry _ _ "n2" "u2" "p" "b2" true).2.1
      ⟨⟨"i", "n", "p", "u", "b"⟩, by simp, rfl⟩
  · exact (addRepository_error_leaves_registry _ _ "n" "u" "p" "b" false).2.2
      (by simp) rfl "clone failed" rfl

/-- Claim C7: on a name collision `AddRepository` tries `name`, `name-1`,
`name-2`, ... in order, stores the first free candidate, and derives the
entry's id from that final name; registering `svc` twice yields stored names
`svc` and `svc-1` with different ids. -/
theorem addRepository_name_disambiguation :
    (∀ (st : ManagerState) (env : AddEnv) (name url path branch : String) (noClone : Bool),
      ¬ (∃ c ∈ st.repositories, c.path = path) →
      (uniqueName (st.repositories.map fun c => c.name) name
          ∉ (st.repositories.map fun c => c.name)
        ∧ ∃ k, uniqueName (st.repositories.map fun c => c.name) name = candidateName name k
            ∧ ∀ j, j < k → candidateName name j ∈ (st.repositories.map fun c => c.name))
      ∧ ∀ cfg, (AddRepository st env name url path branch noClone).2 = .ok cfg →
          cfg.name = uniqueName (st.repositories.map fun c => c.name) name
          ∧ cfg.id = GenerateID cfg.name url branch path
          ∧ (AddRepository st env name url path branch noClone).1.repositories
              = st.repositories ++ [cfg])
    ∧ ((AddRepository (AddRepository ⟨[], []⟩ ⟨.ok (), .ok (), .ok ()⟩ "svc" "u" "p1" "" true).1
          ⟨.ok (), .ok (), .ok ()⟩ "svc" "u" "p2" "" true).1.repositories.map (fun c => c.name)
          = ["svc", "svc-1"]
        ∧ ((AddRepository (AddRepository ⟨[], []⟩ ⟨.ok (), .ok (), .ok ()⟩ "svc" "u" "p1" "" true).1
            ⟨.ok (), .ok (), .ok ()⟩ "svc" "u" "p2" "" true).1.repositories.map
              (fun c => c.id)).Nodup) := by
  constructor
  · intro st env name url path branch noClone hconf
    constructor
    · exact uniqueName_spec (st.repositories.map fun c => c.name) name
    · intro cfg hok
      unfold AddRepository at hok ⊢
      simp only [if_neg hconf] at hok ⊢
      cases hcl : (if noClone then Except.ok () else env.clone) with
      | error e2 => rw [hcl] at hok; exact absurd hok (by simp)
      | ok u =>
        cases u
        simp only [hcl] at hok ⊢
        cases hsm : env.saveMetadata with
        | error e2 => rw [hsm] at hok; exact absurd hok (by simp)
        | ok u2 =>
          cases u2
          simp only [hsm] at hok ⊢
          cases hsc : env.saveConfig with
          | error e2 => rw [hsc] at hok; exact absurd hok (by simp)
          | ok u3 =>
            cases u3
            simp only [hsc] at hok ⊢
            have hcfg : cfg = ⟨GenerateID (uniqueName (st.repositories.map fun c => c.name) name)
                url branch path, uniqueName (st.repositories.map fun c => c.name) name,
                path, url, branch⟩ := by
              injection hok with h1
              exact h1.symm
            subst hcfg
            exact ⟨rfl, rfl, rfl⟩
  · decide

theorem addRepository_name_disambiguation_witness :
    (AddRepository ⟨[⟨"i0", "svc", "p1", "u", ""⟩], [⟨"i0", "svc", "p1", "u", ""⟩]⟩
        ⟨.ok (), .ok (), .ok ()⟩ "svc" "u" "p2" "" true).1.repositories
      = [⟨"i0", "svc", "p1", "u", ""⟩]
        ++ [⟨GenerateID "svc-1" "u" "" "p2", "svc-1", "p2", "u", ""⟩] :=
  ((addRepository_name_disambiguation.1
      ⟨[⟨"i0", "svc", "p1", "u", ""⟩], [⟨"i0", "svc", "p1", "u", ""⟩]⟩
      ⟨.ok (), .ok (), .ok ()⟩ "svc" "u" "p2" "" true (by simp)).2
    ⟨GenerateID "svc-1" "u" "" "p2", "svc-1", "p2", "u", ""⟩ (by decide)).2.2

end Mctl

namespace Mctl

theorem preflight_error_of_dirty (env : ApplyEnv) :
    ∀ l : List RepositoryState, (∃ r ∈ l, env.hasLocalChanges r.name = .ok true) →
      ∃ e, preflight env l = .error e := by
  intro l
  induction l with
  | nil => rintro ⟨r, hr, -⟩; cases hr
  | cons hd tl ih =>
    rintro ⟨r, hr, hdirty⟩
    cases hgr : env.getRepo hd.name with
    | error e =>
      exact ⟨"error getting repository " ++ hd.name ++ ": " ++ e, by simp [preflight, hgr]⟩
    | ok u =>
      cases u
      cases hlc : env.hasLocalChanges hd.name with
      | error e =>
        exact ⟨"error checking for changes in " ++ hd.name ++ ": " ++ e,
          by simp [preflight, hgr, hlc]⟩
      | ok b =>
        cases b with
        | true =>
          exact ⟨"repository " ++ hd.name ++ " has uncommitted changes, use --force to override",
            by simp [preflight, hgr, hlc]⟩
        | false =>
          rcases List.mem_cons.1 hr with rfl | hrtl
          · rw [hlc] at hdirty
            exact absurd hdirty (by simp)
          · obtain ⟨e, he⟩ := ih ⟨r, hrtl, hdirty⟩
            exact ⟨e, by simp [preflight, hgr, hlc, he]⟩

/-- Claim C3: with `force` unset, a single dirty targeted repository makes
the whole `ApplySnapshot` fail before mutating anything: it returns an error
and performs zero checkouts, resets, or status updates on any targeted
repository, including the clean ones. -/
theorem applySnapshot_preflight_gate (snap : Snapshot) (env : ApplyEnv) (o : ApplyOptions)
    (hforce : o.force = false)
    (hdirty : ∃ r ∈ filterTargets snap.repositories o.repositories,
        env.hasLocalChanges r.name = .ok true) :
    (ApplySnapshot snap env o).1 = [] ∧ ∃ e, (ApplySnapshot snap env o).2 = .error e := by
  obtain ⟨e, he⟩ := preflight_error_of_dirty env _ hdirty
  unfold ApplySnapshot
  rw [hforce]
  simp only [if_pos rfl, he]
  exact ⟨rfl, e, rfl⟩

theorem applySnapshot_preflight_gate_witness :
    (ApplySnapshot ⟨"s", 0, "d",
        [⟨"i1", "a", "pa", "main", "c1", "CLEAN"⟩, ⟨"i2", "b", "pb", "main", "c2", "CLEAN"⟩]⟩
      ⟨fun _ => .ok (), fun n => .ok (n = "b"), fun _ _ => .ok (), fun _ _ => .ok (),
       fun _ => .ok ()⟩
      ⟨false, false, []⟩).1 = []
    ∧ ∃ e, (ApplySnapshot ⟨"s", 0, "d",
        [⟨"i1", "a", "pa", "main", "c1", "CLEAN"⟩, ⟨"i2", "b", "pb", "main", "c2", "CLEAN"⟩]⟩
      ⟨fun _ => .ok (), fun n => .ok (n = "b"), fun _ _ => .ok (), fun _ _ => .ok (),
       fun _ => .ok ()⟩
      ⟨false, false, []⟩).2 = .error e :=
  applySnapshot_preflight_gate _ _ _ rfl
    ⟨⟨"i2", "b", "pb", "main", "c2", "CLEAN"⟩, by decide, by decide⟩

theorem applyLoop_cons_ok (env : ApplyEnv) (r : RepositoryState) (rest : List RepositoryState)
    (h : okOn env r) :
    applyLoop env false (r :: rest) =
      (repoOps r ++ (applyLoop env false rest).1, (applyLoop env false rest).2) := by
  obtain ⟨h1, h2, h3, h4⟩ := h
  simp only [applyLoop, h1, h2, h3, h4, Bool.false_eq_true, if_false]

theorem applyLoop_prefix_ok (env : ApplyEnv) :
    ∀ (pre rest : List RepositoryState), (∀ x ∈ pre, okOn env x) →
      applyLoop env false (pre ++ rest) =
        ((pre.map repoOps).flatten ++ (applyLoop env false rest).1,
         (applyLoop env false rest).2) := by
  intro pre
  induction pre with
  | nil => intro rest _; simp
  | cons hd tl ih =>
    intro rest hok
    rw [List.cons_append, applyLoop_cons_ok env hd _ (hok hd (List.mem_cons_self hd tl)),
      ih rest (fun x hx => hok x (List.mem_cons_of_mem hd hx))]
    simp [List.append_assoc]

theorem applyLoop_fail_head (env : ApplyEnv) (r : RepositoryState) (rest : List RepositoryState)
    (hget : env.getRepo r.name = .ok ()) (hfail : ¬ okOn env r) :
    ∃ e ops, ops ≠ [] ∧ (∃ tail, repoOps r = ops ++ tail) ∧
      applyLoop env false (r :: rest) = (ops, .error e) := by
  cases hco : env.checkoutBranch r.name r.branch with
  | error e =>
    refine ⟨"error checking out branch " ++ r.branch ++ " in repository " ++ r.name ++ ": " ++ e,
      [.checkout r.name r.branch], by simp,
      ⟨[.reset r.name r.commitHash, .update r.name], rfl⟩, ?_⟩
    simp only [applyLoop, hget, hco, Bool.false_eq_true, if_false]
  | ok u =>
    cases u
    cases hre : env.resetToCommit r.name r.commitHash with
    | error e =>
      refine ⟨"error resetting to commit " ++ r.commitHash ++ " in repository " ++ r.name
          ++ ": " ++ e,
        [.checkout r.name r.branch, .reset r.name r.commitHash], by simp,
        ⟨[.update r.name], rfl⟩, ?_⟩
      simp only [applyLoop, hget, hco, hre, Bool.false_eq_true, if_false]
    | ok u2 =>
      cases u2
      cases hup : env.updateStatus r.name with
      | error e =>
        refine ⟨"error updating repository status: " ++ e, repoOps r, by simp [repoOps],
          ⟨[], by simp⟩, ?_⟩
        simp only [applyLoop, hget, hco, hre, hup, Bool.false_eq_true, if_false]
      | ok u3 =>
        cases u3
        exact absurd ⟨hget, hco, hre, hup⟩ hfail

/-- Claim C4: `ApplySnapshot` walks the targeted entries strictly in
snapshot order; the first entry whose checkout, reset, or status update
fails makes it return that error, performing no operation on any later
entry, while every earlier entry keeps its fully applied operation sequence
with no rollback. -/
theorem applySnapshot_first_failure_halts (snap : Snapshot) (env : ApplyEnv) (o : ApplyOptions)
    (pre post : List RepositoryState) (r : RepositoryState)
    (hdry : o.dryRun = false)
    (hgate : o.force = true ∨ preflight env (filterTargets snap.repositories o.repositories) = .ok ())
    (hsplit : filterTargets snap.repositories o.repositories = pre ++ r :: post)
    (hpre : ∀ x ∈ pre, okOn env x)
    (hget : env.getRepo r.name = .ok ())
    (hfail : ¬ okOn env r) :
    ∃ e ops, ops ≠ [] ∧ (∃ tail, repoOps r = ops ++ tail) ∧
      ApplySnapshot snap env o = ((pre.map repoOps).flatten ++ ops, .error e) := by
  obtain ⟨e, ops, hne, hpref, hloop⟩ := applyLoop_fail_head env r post hget hfail
  have hmain : applyLoop env false (filterTargets snap.repositories o.repositories) =
      ((pre.map repoOps).flatten ++ ops, .error e) := by
    rw [hsplit, applyLoop_prefix_ok env pre _ hpre, hloop]
  refine ⟨e, ops, hne, hpref, ?_⟩
  unfold ApplySnapshot
  rcases hgate with hf | hok
  · simp [hf, hdry, hmain]
  · cases hfo : o.force with
    | false => simp [hfo, hok, hdry, hmain]
    | true => simp [hfo, hdry, hmain]

theorem applySnapshot_first_failure_halts_witness :
    ∃ e ops, ops ≠ [] ∧
      (∃ tail, repoOps ⟨"i2", "b", "pb", "main", "c2", "CLEAN"⟩ = ops ++ tail) ∧
      ApplySnapshot ⟨"s", 0, "d",
          [⟨"i1", "a", "pa", "main", "c1", "CLEAN"⟩, ⟨"i2", "b", "pb", "main", "c2", "CLEAN"⟩]⟩
        ⟨fun _ => .ok (), fun _ => .ok false, fun _ _ => .ok (),
         fun n _ => if n = "b" then .error "reset failed" else .ok (), fun _ => .ok ()⟩
        ⟨false, true, []⟩
        = (([⟨"i1", "a", "pa", "main", "c1", "CLEAN"⟩].map repoOps).flatten ++ ops, .error e) :=
  applySnapshot_first_failure_halts _ _ _
    [⟨"i1", "a", "pa", "main", "c1", "CLEAN"⟩] [] ⟨"i2", "b", "pb", "main", "c2", "CLEAN"⟩
    rfl (Or.inl rfl) (by decide)
    (by
      intro x hx
      rw [List.mem_singleton] at hx
      subst hx
      exact ⟨rfl, rfl, by decide, rfl⟩)
    rfl
    (by
      rintro ⟨-, -, h3, -⟩
      exact absurd h3 (by decide))

end Mctl
